import Mathlib

/-!
Shallow embedding of the Game of Life core from
`src/examples/game-of-life/src/game.ts`.

Modelling conventions:
* A JavaScript string is embedded as `List Char`; `String.prototype.trim`
  becomes `jsTrim` and `split('\n')` becomes `jsSplitNl` (note that in
  JavaScript `"".split('\n')` is `[""]`, never the empty array, and
  `jsSplitNl` reproduces this).
* `Cell = boolean` becomes `Bool`, `Grid = Cell[][]` becomes
  `List (List Bool)`.
* Functions that `throw` are embedded as `Except String` values carrying
  the exact `Error` message the source throws.
* Out-of-bounds JavaScript array indexing yields `undefined`, which is
  falsy; reads are embedded with `List.getD` and a default that behaves
  like `undefined` at the use site (`false` for cells, `'.'` for pattern
  characters, neither of which equals `'O'`).
* The imperative fill loop of `nextGeneration` writes every cell of the
  fresh grid exactly once from the input grid, so it is embedded as a
  nested map over the row and column index ranges.
-/

namespace GameOfLife

/-- `type Cell = boolean`. -/
abbrev Cell := Bool

/-- `type Grid = Cell[][]`. -/
abbrev Grid := List (List Cell)

/-- `interface Pattern { width; height; cells }`. -/
structure Pattern where
  width : Nat
  height : Nat
  cells : Grid
deriving DecidableEq

/-- `createEmptyGrid(width, height)`: throws on non-positive dimensions,
otherwise `height` rows of `width` dead cells. -/
def createEmptyGrid (width height : Int) : Except String Grid :=
  if width ≤ 0 ∨ height ≤ 0 then
    .error ("Grid dimensions must be positive")
  else
    .ok (List.replicate height.toNat (List.replicate width.toNat false))

/-- JavaScript `String.prototype.trim`: strip whitespace from both ends. -/
def jsTrim (s : List Char) : List Char :=
  ((s.dropWhile Char.isWhitespace).reverse.dropWhile Char.isWhitespace).reverse

/-- JavaScript `String.prototype.split('\n')`: always returns at least one
piece; `"".split('\n') == [""]`. -/
def jsSplitNl : List Char → List (List Char)
  | [] => [[]]
  | c :: rest =>
    match jsSplitNl rest with
    | [] => [[]]
    | l :: ls => if c = '\n' then [] :: l :: ls else (c :: l) :: ls

/-- `Math.max(...xs)` over a list of lengths (the source only applies it to
a non-empty list, where the `-Infinity` base case cannot surface). -/
def maxLength (l : List Nat) : Nat :=
  l.foldl Nat.max 0

/-- `parsePattern(pattern)`: trim the whole text, split on newlines, trim
each line; guard (dead in JavaScript) against zero lines; width is the
maximum line length; each row is rebuilt by reading `line[i] === 'O'`
for `i < width`, where a missing character is not `'O'`. -/
def parsePattern (pattern : List Char) : Except String Pattern :=
  let lines := (jsSplitNl (jsTrim pattern)).map jsTrim
  if lines.length = 0 then
    .error ("Pattern cannot be empty")
  else
    let height := lines.length
    let width := maxLength (lines.map List.length)
    let cells : Grid :=
      lines.map fun line => (List.range width).map fun i => line.getD i '.' == 'O'
    .ok ⟨width, height, cells⟩

/-- JavaScript `Array.prototype.join('\n')` on a list of lines. -/
def joinLines : List (List Char) → List Char
  | [] => []
  | [l] => l
  | l :: ls => l ++ '\n' :: joinLines ls

/-- One row of `gridToString`: `row.map(cell => cell ? 'O' : '.').join('')`. -/
def renderRow (row : List Cell) : List Char :=
  row.map fun cell => if cell then 'O' else '.'

/-- `gridToString(grid)`: render each cell as `'O'`/`'.'` and join the rows
with newlines. -/
def gridToString (grid : Grid) : List Char :=
  joinLines (grid.map renderRow)

/-- Read `grid[y][x]` for natural indices (out of bounds reads `undefined`,
which is falsy). -/
def cellAt (grid : Grid) (y x : Nat) : Bool :=
  (grid.getD y []).getD x false

/-- `const height = grid.length`. -/
def gridHeight (grid : Grid) : Nat :=
  grid.length

/-- `const width = grid[0].length` (for a grid with at least one row). -/
def gridWidth (grid : Grid) : Nat :=
  (grid.headD []).length

/-- Spec notion: `(x, y)` is a corner coordinate of the grid. -/
def isCorner (grid : Grid) (x y : Int) : Prop :=
  (x = 0 ∨ x = (gridWidth grid : Int) - 1) ∧ (y = 0 ∨ y = (gridHeight grid : Int) - 1)

/-- Spec notion: `(x, y)` lies on the grid boundary (first/last row or
column). -/
def onBoundary (grid : Grid) (x y : Int) : Prop :=
  x = 0 ∨ x = (gridWidth grid : Int) - 1 ∨ y = 0 ∨ y = (gridHeight grid : Int) - 1

/-- The eight `(dx, dy)` offsets visited by the neighbor loops, in source
order (`dy` outer from -1 to 1, `dx` inner, skipping `(0, 0)`). -/
def neighborOffsets : List (Int × Int) :=
  [(-1, -1), (0, -1), (1, -1), (-1, 0), (1, 0), (-1, 1), (0, 1), (1, 1)]

/-- The body of the neighbor loop: the neighbor at row `ny`, column `nx`
is counted iff it lies inside the bounds (height `grid.length`, width
`grid[0].length`) and is alive. -/
def neighborLive (grid : Grid) (ny nx : Int) : Bool :=
  decide (0 ≤ ny) && decide (ny < (gridHeight grid : Int)) &&
  decide (0 ≤ nx) && decide (nx < (gridWidth grid : Int)) &&
  cellAt grid ny.toNat nx.toNat

/-- `countLiveNeighbors(grid, x, y)`: count the live in-bounds cells among
the eight offsets. -/
def countLiveNeighbors (grid : Grid) (x y : Int) : Nat :=
  neighborOffsets.countP fun d => neighborLive grid (y + d.2) (x + d.1)

/-- The rule applied to one cell by `nextGeneration`'s inner loop, reading
only the input grid. -/
def nextCell (grid : Grid) (x y : Nat) : Bool :=
  if cellAt grid y x then
    countLiveNeighbors grid (x : Int) (y : Int) == 2 ||
      countLiveNeighbors grid (x : Int) (y : Int) == 3
  else
    countLiveNeighbors grid (x : Int) (y : Int) == 3

/-- The fresh grid built by `nextGeneration`'s nested fill loop: row `y`,
column `x` holds `nextCell grid x y`, for `y < height`, `x < width`. -/
def nextGrid (grid : Grid) : Grid :=
  (List.range (gridHeight grid)).map fun y =>
    (List.range (gridWidth grid)).map fun x => nextCell grid x y

/-- `nextGeneration(grid)`: throws on an empty grid (no rows, or an empty
first row), otherwise fills a `height × width` grid cell by cell from the
input grid. -/
def nextGeneration (grid : Grid) : Except String Grid :=
  if grid.length = 0 ∨ (grid.headD []).length = 0 then
    .error ("Grid cannot be empty")
  else
    .ok (nextGrid grid)

/-- The `for (let i = 0; i < generations; i++)` loop of `simulate`,
propagating any error thrown by `nextGeneration`. -/
def simulateAux : Nat → Grid → Except String Grid
  | 0, grid => .ok grid
  | n + 1, grid => (nextGeneration grid).bind (simulateAux n)

/-- `simulate(initialGrid, generations)`: throws on a negative generation
count, otherwise applies `nextGeneration` that many times. -/
def simulate (initialGrid : Grid) (generations : Int) : Except String Grid :=
  if generations < 0 then
    .error ("Number of generations must be non-negative")
  else
    simulateAux generations.toNat initialGrid

/-! ### Helper lemmas -/

theorem nextGeneration_eq_ok (g : Grid) (h1 : g.length ≠ 0) (h2 : (g.headD []).length ≠ 0) :
    nextGeneration g = .ok (nextGrid g) := by
  unfold nextGeneration
  rw [if_neg (by tauto)]

theorem nextGrid_length (g : Grid) : (nextGrid g).length = g.length := by
  simp [nextGrid, gridHeight]

theorem nextGrid_row_length (g : Grid) (row : List Cell) (h : row ∈ nextGrid g) :
    row.length = gridWidth g := by
  simp only [nextGrid, List.mem_map] at h
  obtain ⟨y, _, rfl⟩ := h
  simp

theorem nextGrid_ne_nil (g : Grid) (h1 : g.length ≠ 0) : nextGrid g ≠ [] := by
  intro h
  exact h1 (by simpa [h] using (nextGrid_length g).symm)

theorem nextGrid_headD_length (g : Grid) (h1 : g.length ≠ 0) :
    ((nextGrid g).headD []).length = gridWidth g := by
  cases h : nextGrid g with
  | nil => exact absurd h (nextGrid_ne_nil g h1)
  | cons a t =>
      have ha : a ∈ nextGrid g := by rw [h]; exact List.mem_cons_self a t
      simpa using nextGrid_row_length g a ha

theorem simulateAux_ok (n : Nat) : ∀ (g : Grid), g.length ≠ 0 → (g.headD []).length ≠ 0 →
    ∃ g2, simulateAux n g = .ok g2 ∧ g2.length ≠ 0 ∧ (g2.headD []).length ≠ 0 := by
  induction n with
  | zero => exact fun g h1 h2 => ⟨g, rfl, h1, h2⟩
  | succ k ih =>
      intro g h1 h2
      have hnext : nextGeneration g = .ok (nextGrid g) := nextGeneration_eq_ok g h1 h2
      have hlen : (nextGrid g).length ≠ 0 := by rw [nextGrid_length]; exact h1
      have hwid : ((nextGrid g).headD []).length ≠ 0 := by
        rw [nextGrid_headD_length g h1]; exact h2
      obtain ⟨g2, e2, h3, h4⟩ := ih (nextGrid g) hlen hwid
      refine ⟨g2, ?_, h3, h4⟩
      simp [simulateAux, hnext, Except.bind, e2]

theorem simulateAux_eq_iterate (n : Nat) : ∀ (e : Except String Grid),
    (fun r => r.bind nextGeneration)^[n] e = e.bind (simulateAux n) := by
  induction n with
  | zero =>
      intro e
      cases e <;> simp [simulateAux, Except.bind]
  | succ k ih =>
      intro e
      rw [Function.iterate_succ_apply, ih]
      cases e with
      | error err => simp [Except.bind]
      | ok g =>
          show (nextGeneration g).bind (simulateAux k) = (simulateAux (k + 1)) g
          rfl

/-! ### Claim theorems -/

/-- C9: a horizontal three-cell line of live cells surrounded by dead cells
becomes the corresponding vertical line after one `nextGeneration`, and
`simulate` for two generations returns the original blinker grid. -/
theorem blinker_oscillates_period_two :
    nextGeneration
        [[false, false, false, false, false],
         [false, false, false, false, false],
         [false, true, true, true, false],
         [false, false, false, false, false],
         [false, false, false, false, false]] =
      .ok
        [[false, false, false, false, false],
         [false, false, true, false, false],
         [false, false, true, false, false],
         [false, false, true, false, false],
         [false, false, false, false, false]] ∧
    simulate
        [[false, false, false, false, false],
         [false, false, false, false, false],
         [false, true, true, true, false],
         [false, false, false, false, false],
         [false, false, false, false, false]] 2 =
      .ok
        [[false, false, false, false, false],
         [false, false, false, false, false],
         [false, true, true, true, false],
         [false, false, false, false, false],
         [false, false, false, false, false]] :=
  ⟨rfl, rfl⟩

/-- C3 (evaluation at the failing inputs): `parsePattern` on the empty
string, and on a whitespace-only string, does not fail: the zero-lines
guard is dead (splitting always yields at least one piece) and a pattern
of width 0, height 1 with one empty row is returned instead of the
documented empty-pattern error. -/
theorem parsePattern_empty_returns_ok :
    parsePattern [] = .ok ⟨0, 1, [[]]⟩ ∧
    parsePattern "  \n \n ".data = .ok ⟨0, 1, [[]]⟩ ∧
    parsePattern [] ≠ .error ("Pattern cannot be empty") :=
  ⟨rfl, rfl, by
    intro h
    rw [show parsePattern [] = Except.ok ⟨0, 1, [[]]⟩ from rfl] at h
    exact Except.noConfusion h⟩

/-- C10: for positive dimensions `createEmptyGrid` returns exactly
`height` rows, each of length `width`, with every cell dead; for
non-positive dimensions it fails with the dimension error. -/
theorem createEmptyGrid_spec (width height : Int) :
    (0 < width → 0 < height →
      ∃ g, createEmptyGrid width height = .ok g ∧
        g.length = height.toNat ∧
        ∀ row ∈ g, row.length = width.toNat ∧ ∀ c ∈ row, c = false) ∧
    (width ≤ 0 ∨ height ≤ 0 →
      createEmptyGrid width height = .error ("Grid dimensions must be positive")) := by
  constructor
  · intro hw hh
    refine ⟨List.replicate height.toNat (List.replicate width.toNat false), ?_, ?_, ?_⟩
    · unfold createEmptyGrid
      rw [if_neg (by omega)]
    · simp
    · intro row hrow
      have hrw := List.eq_of_mem_replicate hrow
      subst hrw
      exact ⟨by simp, fun c hc => List.eq_of_mem_replicate hc⟩
  · intro h
    unfold createEmptyGrid
    rw [if_pos h]

/-- C10 witness: `createEmptyGrid 3 2` is a 2-row, 3-column all-dead grid. -/
theorem createEmptyGrid_spec_witness :
    (0 : Int) < 3 ∧ (0 : Int) < 2 ∧
    ∃ g, createEmptyGrid 3 2 = .ok g ∧
      g.length = (2 : Int).toNat ∧
      ∀ row ∈ g, row.length = (3 : Int).toNat ∧ ∀ c ∈ row, c = false :=
  ⟨by decide, by decide, (createEmptyGrid_spec 3 2).1 (by decide) (by decide)⟩

/-- C2: for every grid and every natural `n`, `simulate` over `n` is the
`n`-fold iteration of `nextGeneration` (in the error monad) starting from
the grid, and zero generations returns the grid unchanged. -/
theorem simulate_iterates (g : Grid) (n : Nat) :
    simulate g (n : Int) = (fun r => r.bind nextGeneration)^[n] (Except.ok g) ∧
    simulate g 0 = Except.ok g := by
  constructor
  · have hnn : ¬ ((n : Int) < 0) := by omega
    rw [simulate, if_neg hnn, Int.toNat_natCast, simulateAux_eq_iterate n (Except.ok g)]
    rfl
  · rfl

/-- C7: `nextGeneration` fails, with the empty-grid error, exactly when the
grid has zero rows or a zero-length first row; on every other grid it
returns a grid. -/
theorem nextGeneration_error_iff (g : Grid) :
    (nextGeneration g = .error ("Grid cannot be empty") ↔
      g.length = 0 ∨ (g.headD []).length = 0) ∧
    (g.length ≠ 0 ∧ (g.headD []).length ≠ 0 → ∃ g2, nextGeneration g = .ok g2) := by
  by_cases h : g.length = 0 ∨ (g.headD []).length = 0
  · refine ⟨⟨fun _ => h, fun _ => ?_⟩, fun hc => absurd h (by tauto)⟩
    unfold nextGeneration
    rw [if_pos h]
  · refine ⟨⟨fun he => ?_, fun hh => absurd hh h⟩, fun _ => ⟨nextGrid g, ?_⟩⟩
    · rw [nextGeneration, if_neg h] at he
      exact Except.noConfusion he
    · rw [nextGeneration, if_neg h]

/-- C7 witness: a 1×1 live grid is accepted by `nextGeneration`. -/
theorem nextGeneration_error_iff_witness :
    ([[true]] : Grid).length ≠ 0 ∧ (([[true]] : Grid).headD []).length ≠ 0 ∧
    ∃ g2, nextGeneration [[true]] = .ok g2 :=
  ⟨by decide, by decide, (nextGeneration_error_iff [[true]]).2 ⟨by decide, by decide⟩⟩

theorem neighborLive_oob (g : Grid) (ny nx : Int)
    (h : ny < 0 ∨ (gridHeight g : Int) ≤ ny ∨ nx < 0 ∨ (gridWidth g : Int) ≤ nx) :
    neighborLive g ny nx = false := by
  unfold neighborLive
  rcases h with h | h | h | h
  · have hne : ¬ (0 ≤ ny) := by omega
    simp [hne]
  · have hne : ¬ (ny < (gridHeight g : Int)) := by omega
    simp [hne]
  · have hne : ¬ (0 ≤ nx) := by omega
    simp [hne]
  · have hne : ¬ (nx < (gridWidth g : Int)) := by omega
    simp [hne]

/-- C8: `simulate` fails with the negative-generations error exactly when
the requested count is negative, and for a non-negative count on a
non-empty grid it returns a grid (so no error at all is raised). -/
theorem simulate_negative_iff (g : Grid) (n : Int)
    (h1 : g.length ≠ 0) (h2 : (g.headD []).length ≠ 0) :
    (simulate g n = .error ("Number of generations must be non-negative") ↔ n < 0) ∧
    (0 ≤ n → ∃ g2, simulate g n = .ok g2) := by
  by_cases hn : n < 0
  · refine ⟨⟨fun _ => hn, fun _ => ?_⟩, fun h0 => absurd hn (by omega)⟩
    rw [simulate, if_pos hn]
  · obtain ⟨g2, e2, _, _⟩ := simulateAux_ok n.toNat g h1 h2
    have hsim : simulate g n = .ok g2 := by
      rw [simulate, if_neg hn]
      exact e2
    refine ⟨⟨fun he => ?_, fun hlt => absurd hlt hn⟩, fun _ => ⟨g2, hsim⟩⟩
    rw [hsim] at he
    exact Except.noConfusion he

/-- C8 witness: on the 1×1 live grid, `simulate` with -1 fails with the
negative-generations error and `simulate` with 3 returns a grid. -/
theorem simulate_negative_iff_witness :
    ([[true]] : Grid).length ≠ 0 ∧ (([[true]] : Grid).headD []).length ≠ 0 ∧
    simulate [[true]] (-1) = .error ("Number of generations must be non-negative") ∧
    ∃ g2, simulate [[true]] 3 = .ok g2 :=
  ⟨by decide, by decide,
   (simulate_negative_iff [[true]] (-1) (by decide) (by decide)).1.mpr (by decide),
   (simulate_negative_iff [[true]] 3 (by decide) (by decide)).2 (by decide)⟩

/-- C5: for a non-empty rectangular grid and an in-bounds coordinate the
neighbor count is between 0 and 8, counting only in-bounds positions with
no wraparound; at a corner it is at most 3 and at a non-corner boundary
coordinate at most 5. -/
theorem countLiveNeighbors_bounds (g : Grid) (w : Nat) (x y : Int)
    (hw : 0 < w) (hh : 0 < g.length) (hrect : ∀ row ∈ g, row.length = w)
    (hx : 0 ≤ x ∧ x < (gridWidth g : Int)) (hy : 0 ≤ y ∧ y < (gridHeight g : Int)) :
    countLiveNeighbors g x y ≤ 8 ∧
    (isCorner g x y → countLiveNeighbors g x y ≤ 3) ∧
    (onBoundary g x y ∧ ¬ isCorner g x y → countLiveNeighbors g x y ≤ 5) := by
  refine ⟨List.countP_le_length _, ?_, ?_⟩
  · rintro ⟨hcx | hcx, hcy | hcy⟩
    · calc countLiveNeighbors g x y
          ≤ List.countP (fun d => decide (0 ≤ d.1) && decide (0 ≤ d.2)) neighborOffsets := by
            apply List.countP_mono_left
            intro d hd hlive
            have hlive2 : neighborLive g (y + d.2) (x + d.1) = true := hlive
            show (decide (0 ≤ d.1) && decide (0 ≤ d.2)) = true
            simp only [Bool.and_eq_true, decide_eq_true_eq]
            by_contra hq
            rw [neighborLive_oob g (y + d.2) (x + d.1) (by omega)] at hlive2
            exact Bool.noConfusion hlive2
        _ ≤ 3 := by decide
    · calc countLiveNeighbors g x y
          ≤ List.countP (fun d => decide (0 ≤ d.1) && decide (d.2 ≤ 0)) neighborOffsets := by
            apply List.countP_mono_left
            intro d hd hlive
            have hlive2 : neighborLive g (y + d.2) (x + d.1) = true := hlive
            show (decide (0 ≤ d.1) && decide (d.2 ≤ 0)) = true
            simp only [Bool.and_eq_true, decide_eq_true_eq]
            by_contra hq
            rw [neighborLive_oob g (y + d.2) (x + d.1) (by omega)] at hlive2
            exact Bool.noConfusion hlive2
        _ ≤ 3 := by decide
    · calc countLiveNeighbors g x y
          ≤ List.countP (fun d => decide (d.1 ≤ 0) && decide (0 ≤ d.2)) neighborOffsets := by
            apply List.countP_mono_left
            intro d hd hlive
            have hlive2 : neighborLive g (y + d.2) (x + d.1) = true := hlive
            show (decide (d.1 ≤ 0) && decide (0 ≤ d.2)) = true
            simp only [Bool.and_eq_true, decide_eq_true_eq]
            by_contra hq
            rw [neighborLive_oob g (y + d.2) (x + d.1) (by omega)] at hlive2
            exact Bool.noConfusion hlive2
        _ ≤ 3 := by decide
    · calc countLiveNeighbors g x y
          ≤ List.countP (fun d => decide (d.1 ≤ 0) && decide (d.2 ≤ 0)) neighborOffsets := by
            apply List.countP_mono_left
            intro d hd hlive
            have hlive2 : neighborLive g (y + d.2) (x + d.1) = true := hlive
            show (decide (d.1 ≤ 0) && decide (d.2 ≤ 0)) = true
            simp only [Bool.and_eq_true, decide_eq_true_eq]
            by_contra hq
            rw [neighborLive_oob g (y + d.2) (x + d.1) (by omega)] at hlive2
            exact Bool.noConfusion hlive2
        _ ≤ 3 := by decide
  · rintro ⟨hb, -⟩
    rcases hb with hbx | hbx | hby | hby
    · calc countLiveNeighbors g x y
          ≤ List.countP (fun d => decide (0 ≤ d.1)) neighborOffsets := by
            apply List.countP_mono_left
            intro d hd hlive
            have hlive2 : neighborLive g (y + d.2) (x + d.1) = true := hlive
            show decide (0 ≤ d.1) = true
            simp only [decide_eq_true_eq]
            by_contra hq
            rw [neighborLive_oob g (y + d.2) (x + d.1) (by omega)] at hlive2
            exact Bool.noConfusion hlive2
        _ ≤ 5 := by decide
    · calc countLiveNeighbors g x y
          ≤ List.countP (fun d => decide (d.1 ≤ 0)) neighborOffsets := by
            apply List.countP_mono_left
            intro d hd hlive
            have hlive2 : neighborLive g (y + d.2) (x + d.1) = true := hlive
            show decide (d.1 ≤ 0) = true
            simp only [decide_eq_true_eq]
            by_contra hq
            rw [neighborLive_oob g (y + d.2) (x + d.1) (by omega)] at hlive2
            exact Bool.noConfusion hlive2
        _ ≤ 5 := by decide
    · calc countLiveNeighbors g x y
          ≤ List.countP (fun d => decide (0 ≤ d.2)) neighborOffsets := by
            apply List.countP_mono_left
            intro d hd hlive
            have hlive2 : neighborLive g (y + d.2) (x + d.1) = true := hlive
            show decide (0 ≤ d.2) = true
            simp only [decide_eq_true_eq]
            by_contra hq
            rw [neighborLive_oob g (y + d.2) (x + d.1) (by omega)] at hlive2
            exact Bool.noConfusion hlive2
        _ ≤ 5 := by decide
    · calc countLiveNeighbors g x y
          ≤ List.countP (fun d => decide (d.2 ≤ 0)) neighborOffsets := by
            apply List.countP_mono_left
            intro d hd hlive
            have hlive2 : neighborLive g (y + d.2) (x + d.1) = true := hlive
            show decide (d.2 ≤ 0) = true
            simp only [decide_eq_true_eq]
            by_contra hq
            rw [neighborLive_oob g (y + d.2) (x + d.1) (by omega)] at hlive2
            exact Bool.noConfusion hlive2
        _ ≤ 5 := by decide

/-- C5 witness: the bound theorem applied at the top-left corner of a 3×3
grid whose border is fully live. -/
theorem countLiveNeighbors_bounds_witness :
    countLiveNeighbors [[true, true, true], [true, false, true], [true, true, true]] 0 0 ≤ 8 ∧
    (isCorner [[true, true, true], [true, false, true], [true, true, true]] 0 0 →
      countLiveNeighbors [[true, true, true], [true, false, true], [true, true, true]] 0 0 ≤ 3) ∧
    (onBoundary [[true, true, true], [true, false, true], [true, true, true]] 0 0 ∧
        ¬ isCorner [[true, true, true], [true, false, true], [true, true, true]] 0 0 →
      countLiveNeighbors [[true, true, true], [true, false, true], [true, true, true]] 0 0 ≤ 5) :=
  countLiveNeighbors_bounds [[true, true, true], [true, false, true], [true, true, true]] 3 0 0
    (by decide) (by decide) (by decide) ⟨by decide, by decide⟩ ⟨by decide, by decide⟩

theorem nextGrid_cell (g : Grid) (y x : Nat) (hy : y < gridHeight g) (hx : x < gridWidth g) :
    cellAt (nextGrid g) y x = nextCell g x y := by
  unfold cellAt nextGrid
  simp only [List.getD_eq_getElem?_getD, List.getElem?_map, List.getElem?_range hy,
    List.getElem?_range hx, Option.map_some', Option.getD_some]

/-- C1: on a non-empty rectangular grid, `nextGeneration` succeeds with a
grid of the same dimensions whose every cell is determined by the input
grid alone: a live input cell is alive next iff its input neighbor count
is 2 or 3, a dead input cell is alive next iff its input neighbor count
is exactly 3. -/
theorem nextGeneration_rule (g : Grid) (w : Nat) (hw : 0 < w) (hh : 0 < g.length)
    (hrect : ∀ row ∈ g, row.length = w) :
    ∃ g2, nextGeneration g = .ok g2 ∧ g2.length = g.length ∧
      (∀ row ∈ g2, row.length = w) ∧
      ∀ y x, y < g.length → x < w →
        (cellAt g2 y x = true ↔
          (if cellAt g y x = true
           then countLiveNeighbors g (x : Int) (y : Int) = 2 ∨
                countLiveNeighbors g (x : Int) (y : Int) = 3
           else countLiveNeighbors g (x : Int) (y : Int) = 3)) := by
  have hgw : gridWidth g = w := by
    unfold gridWidth
    cases g with
    | nil => simp at hh
    | cons r t => exact hrect r (List.mem_cons_self r t)
  refine ⟨nextGrid g, nextGeneration_eq_ok g (by omega) ?_, nextGrid_length g, ?_, ?_⟩
  · show gridWidth g ≠ 0
    omega
  · intro row hrow
    rw [nextGrid_row_length g row hrow, hgw]
  · intro y x hy hx
    rw [nextGrid_cell g y x hy (by rw [hgw]; exact hx)]
    unfold nextCell
    by_cases hc : cellAt g y x = true
    · rw [if_pos hc, if_pos hc]
      simp
    · rw [if_neg hc, if_neg hc]
      simp

/-- C1 witness: the rule theorem applied to a concrete 2×2 grid. -/
theorem nextGeneration_rule_witness :
    ∃ g2, nextGeneration [[true, true], [true, false]] = .ok g2 ∧
      g2.length = ([[true, true], [true, false]] : Grid).length ∧
      (∀ row ∈ g2, row.length = 2) ∧
      ∀ y x, y < ([[true, true], [true, false]] : Grid).length → x < 2 →
        (cellAt g2 y x = true ↔
          (if cellAt [[true, true], [true, false]] y x = true
           then countLiveNeighbors [[true, true], [true, false]] (x : Int) (y : Int) = 2 ∨
                countLiveNeighbors [[true, true], [true, false]] (x : Int) (y : Int) = 3
           else countLiveNeighbors [[true, true], [true, false]] (x : Int) (y : Int) = 3)) :=
  nextGeneration_rule [[true, true], [true, false]] 2 (by decide) (by decide) (by decide)

/-! ### Parser helper lemmas -/

theorem jsSplitNl_ne_nil (s : List Char) : jsSplitNl s ≠ [] := by
  induction s with
  | nil => simp [jsSplitNl]
  | cons c rest ih =>
      cases h : jsSplitNl rest with
      | nil => exact absurd h ih
      | cons l ls =>
          by_cases hc : c = '\n' <;> simp [jsSplitNl, h, hc]

theorem jsSplitNl_append (l s : List Char) (h : '\n' ∉ l) :
    jsSplitNl (l ++ s) = (l ++ (jsSplitNl s).headD []) :: (jsSplitNl s).tail := by
  induction l with
  | nil =>
      simp only [List.nil_append]
      cases hs : jsSplitNl s with
      | nil => exact absurd hs (jsSplitNl_ne_nil s)
      | cons a t => simp
  | cons c l ih =>
      have hc : ¬ (c = '\n') := fun e => h (e ▸ List.mem_cons_self c l)
      have h2 : '\n' ∉ l := fun hm => h (List.mem_cons_of_mem c hm)
      rw [List.cons_append]
      show (match jsSplitNl (l ++ s) with
        | [] => [[]]
        | m :: ms => if c = '\n' then [] :: m :: ms else (c :: m) :: ms) = _
      rw [ih h2]
      simp [hc]

theorem jsSplitNl_newline_cons (s : List Char) :
    jsSplitNl ('\n' :: s) = [] :: jsSplitNl s := by
  show (match jsSplitNl s with
    | [] => [[]]
    | m :: ms => if '\n' = '\n' then [] :: m :: ms else ('\n' :: m) :: ms) = _
  cases hs : jsSplitNl s with
  | nil => exact absurd hs (jsSplitNl_ne_nil s)
  | cons a t => simp

theorem acc_le_foldl_max : ∀ (l : List Nat) (acc : Nat), acc ≤ l.foldl Nat.max acc := by
  intro l
  induction l with
  | nil => exact fun acc => Nat.le_refl acc
  | cons b t ih =>
      intro acc
      exact le_trans (Nat.le_max_left acc b) (ih (Nat.max acc b))

theorem le_foldl_max : ∀ (l : List Nat) (acc a : Nat), a ∈ l → a ≤ l.foldl Nat.max acc := by
  intro l
  induction l with
  | nil => intro acc a h; cases h
  | cons b t ih =>
      intro acc a h
      rw [List.foldl_cons]
      rcases List.mem_cons.mp h with rfl | h2
      · exact le_trans (Nat.le_max_right acc a) (acc_le_foldl_max t (Nat.max acc a))
      · exact ih (Nat.max acc b) a h2

theorem foldl_max_mem : ∀ (l : List Nat) (acc : Nat),
    l.foldl Nat.max acc = acc ∨ l.foldl Nat.max acc ∈ l := by
  intro l
  induction l with
  | nil => intro acc; left; rfl
  | cons a t ih =>
      intro acc
      rw [List.foldl_cons]
      rcases ih (Nat.max acc a) with h | h
      · rw [h]
        rcases Nat.le_total acc a with hm | hm
        · right
          have he : Nat.max acc a = a := Nat.max_eq_right hm
          rw [he]
          exact List.mem_cons_self a t
        · left
          exact Nat.max_eq_left hm
      · right
        exact List.mem_cons_of_mem a h

theorem foldl_max_const (w : Nat) : ∀ (l : List Nat), (∀ a ∈ l, a = w) → ∀ acc : Nat,
    l.foldl Nat.max acc = if l = [] then acc else Nat.max acc w := by
  intro l
  induction l with
  | nil => intro _ acc; simp
  | cons a t ih =>
      intro h acc
      have ha : a = w := h a (List.mem_cons_self a t)
      have h2 : ∀ b ∈ t, b = w := fun b hb => h b (List.mem_cons_of_mem a hb)
      subst ha
      rw [List.foldl_cons, ih h2 (Nat.max acc a)]
      by_cases ht : t = [] <;> simp [ht, Nat.max_assoc]

/-- C4 (amended): for every input string, `parsePattern` succeeds with a
pattern whose height is the number of newline-separated pieces of the
trimmed input (blank interior lines included), whose width is the maximum
trimmed-line length (an upper bound that is attained), and whose grid is
`height` rows of `width` cells, each cell read as `line[x] == 'O'` with
missing characters (right-padding) parsing as dead. -/
theorem parsePattern_spec (s : List Char) :
    ∃ p, parsePattern s = .ok p ∧
      p.height = (jsSplitNl (jsTrim s)).length ∧
      (∀ l ∈ (jsSplitNl (jsTrim s)).map jsTrim, l.length ≤ p.width) ∧
      (∃ l ∈ (jsSplitNl (jsTrim s)).map jsTrim, l.length = p.width) ∧
      p.cells.length = p.height ∧
      (∀ row ∈ p.cells, row.length = p.width) ∧
      ∀ y x, y < p.height → x < p.width →
        cellAt p.cells y x =
          ((((jsSplitNl (jsTrim s)).map jsTrim).getD y []).getD x '.' == 'O') := by
  have hne : (jsSplitNl (jsTrim s)).map jsTrim ≠ [] := by
    intro h
    exact jsSplitNl_ne_nil (jsTrim s) (List.map_eq_nil_iff.mp h)
  have hlen0 : ¬ ((jsSplitNl (jsTrim s)).map jsTrim).length = 0 := by
    simpa [List.length_eq_zero] using hne
  have heq : parsePattern s = .ok
      ⟨maxLength (((jsSplitNl (jsTrim s)).map jsTrim).map List.length),
       ((jsSplitNl (jsTrim s)).map jsTrim).length,
       ((jsSplitNl (jsTrim s)).map jsTrim).map fun line =>
         (List.range (maxLength (((jsSplitNl (jsTrim s)).map jsTrim).map List.length))).map
           fun i => line.getD i '.' == 'O'⟩ := by
    simp only [parsePattern]
    rw [if_neg hlen0]
  refine ⟨_, heq, by simp, ?_, ?_, by simp, ?_, ?_⟩
  · intro l hl
    exact le_foldl_max (((jsSplitNl (jsTrim s)).map jsTrim).map List.length) 0 l.length
      (List.mem_map_of_mem List.length hl)
  · rcases foldl_max_mem (((jsSplitNl (jsTrim s)).map jsTrim).map List.length) 0 with h | h
    · obtain ⟨l0, ls, hcons⟩ := List.exists_cons_of_ne_nil hne
      have hmem : l0 ∈ (jsSplitNl (jsTrim s)).map jsTrim := by
        rw [hcons]
        exact List.mem_cons_self l0 ls
      refine ⟨l0, hmem, ?_⟩
      have hle : l0.length ≤ maxLength (((jsSplitNl (jsTrim s)).map jsTrim).map List.length) :=
        le_foldl_max _ 0 l0.length (List.mem_map_of_mem List.length hmem)
      have h0 : maxLength (((jsSplitNl (jsTrim s)).map jsTrim).map List.length) = 0 := h
      show l0.length = maxLength (((jsSplitNl (jsTrim s)).map jsTrim).map List.length)
      omega
    · obtain ⟨l, hl, he⟩ := List.mem_map.mp h
      exact ⟨l, hl, he⟩
  · intro row hrow
    simp only [List.mem_map] at hrow
    obtain ⟨line, _, rfl⟩ := hrow
    simp
  · intro y x hy hx
    have hy2 : y < ((jsSplitNl (jsTrim s)).map jsTrim).length := hy
    have hx2 : x < maxLength (((jsSplitNl (jsTrim s)).map jsTrim).map List.length) := hx
    unfold cellAt
    simp only [List.getD_eq_getElem?_getD, List.getElem?_map, List.getElem?_eq_getElem hy2,
      List.getElem?_range hx2, Option.map_some', Option.getD_some]

/-- C4 witness: the parser specification applied to the concrete input
`"O."`. -/
theorem parsePattern_spec_witness :
    ∃ p, parsePattern "O.".data = .ok p ∧
      p.height = (jsSplitNl (jsTrim "O.".data)).length ∧
      (∀ l ∈ (jsSplitNl (jsTrim "O.".data)).map jsTrim, l.length ≤ p.width) ∧
      (∃ l ∈ (jsSplitNl (jsTrim "O.".data)).map jsTrim, l.length = p.width) ∧
      p.cells.length = p.height ∧
      (∀ row ∈ p.cells, row.length = p.width) ∧
      ∀ y x, y < p.height → x < p.width →
        cellAt p.cells y x =
          ((((jsSplitNl (jsTrim "O.".data)).map jsTrim).getD y []).getD x '.' == 'O') :=
  parsePattern_spec ("O.".data)

/-- C4 counterexample: on the input `"O\n\nO"` the parser reports height 3
(the interior blank line counts as a row of dead cells), while the number
of non-empty trimmed lines is 2, so height is not the number of non-empty
trimmed lines. -/
theorem parsePattern_height_counterexample :
    (parsePattern ("O\n\nO".data)).map Pattern.height = Except.ok 3 ∧
    (((jsSplitNl (jsTrim ("O\n\nO".data))).map jsTrim).filter fun l => !l.isEmpty).length = 2 ∧
    (3 : Nat) ≠ 2 :=
  ⟨rfl, rfl, by decide⟩

/-! ### Round-trip helper lemmas -/

theorem getLastD_mem {α : Type} : ∀ (l : List α) (d : α), l ≠ [] → l.getLastD d ∈ l := by
  intro l
  induction l with
  | nil => intro d h; exact absurd rfl h
  | cons a t ih =>
      intro d _
      rw [List.getLastD_cons]
      cases t with
      | nil => simp [List.getLastD]
      | cons b t2 => exact List.mem_cons_of_mem a (ih a (by simp))

theorem map_eq_self_of {α : Type} (l : List α) (f : α → α) (h : ∀ a ∈ l, f a = a) :
    l.map f = l := by
  induction l with
  | nil => rfl
  | cons a t ih =>
      rw [List.map_cons, h a (List.mem_cons_self a t),
        ih fun b hb => h b (List.mem_cons_of_mem a hb)]

theorem jsTrim_eq_self_of_no_ws (s : List Char) (h : ∀ c ∈ s, c.isWhitespace = false) :
    jsTrim s = s := by
  unfold jsTrim
  have e1 : s.dropWhile Char.isWhitespace = s := by
    cases s with
    | nil => rfl
    | cons a t => exact List.dropWhile_cons_of_neg (by simp [h a (List.mem_cons_self a t)])
  have e2 : s.reverse.dropWhile Char.isWhitespace = s.reverse := by
    cases hr : s.reverse with
    | nil => rfl
    | cons b t2 =>
        apply List.dropWhile_cons_of_neg
        have hb : b ∈ s := by
          have hbr : b ∈ s.reverse := by
            rw [hr]
            exact List.mem_cons_self b t2
          exact List.mem_reverse.mp hbr
        simp [h b hb]
  rw [e1, e2, List.reverse_reverse]

theorem jsTrim_eq_self_of_ends (s : List Char) (h1 : s ≠ [])
    (h2 : (s.headD ' ').isWhitespace = false)
    (h3 : (s.getLastD ' ').isWhitespace = false) :
    jsTrim s = s := by
  unfold jsTrim
  have e1 : s.dropWhile Char.isWhitespace = s := by
    cases s with
    | nil => rfl
    | cons a t => exact List.dropWhile_cons_of_neg (by simpa using h2)
  have hrne : s.reverse ≠ [] := by simpa [List.reverse_eq_nil_iff] using h1
  have e2 : s.reverse.dropWhile Char.isWhitespace = s.reverse := by
    cases hr : s.reverse with
    | nil => exact absurd hr hrne
    | cons b t2 =>
        apply List.dropWhile_cons_of_neg
        have hb : s.getLast? = some b := by
          rw [← List.head?_reverse, hr]
          rfl
        have hbd : s.getLastD ' ' = b := by
          rw [List.getLastD_eq_getLast?, hb]
          rfl
        rw [hbd] at h3
        simp [h3]
  rw [e1, e2, List.reverse_reverse]

theorem joinLines_cons_cons (r r2 : List Char) (rs : List (List Char)) :
    joinLines (r :: r2 :: rs) = r ++ '\n' :: joinLines (r2 :: rs) := rfl

theorem joinLines_ne_nil (rows : List (List Char)) (h1 : rows ≠ [])
    (h2 : ∀ row ∈ rows, row ≠ []) : joinLines rows ≠ [] := by
  cases rows with
  | nil => exact absurd rfl h1
  | cons r rs =>
      cases rs with
      | nil => exact h2 r (List.mem_cons_self r [])
      | cons r2 rs2 =>
          rw [joinLines_cons_cons]
          simp

theorem joinLines_headD (r : List Char) (rs : List (List Char)) (hr : r ≠ []) :
    (joinLines (r :: rs)).headD ' ' = r.headD ' ' := by
  cases rs with
  | nil => rfl
  | cons r2 rs2 =>
      rw [joinLines_cons_cons]
      cases r with
      | nil => exact absurd rfl hr
      | cons a t => rfl

theorem joinLines_getLast? (rows : List (List Char)) (h2 : ∀ row ∈ rows, row ≠ []) :
    rows ≠ [] → (joinLines rows).getLast? = (rows.getLastD []).getLast? := by
  induction rows with
  | nil => intro h; exact absurd rfl h
  | cons r rs ih =>
      intro _
      cases rs with
      | nil =>
          rw [show joinLines [r] = r from rfl, List.getLastD_cons]
          rfl
      | cons r2 rs2 =>
          have hrec := ih (fun row hrow => h2 row (List.mem_cons_of_mem r hrow)) (by simp)
          rw [joinLines_cons_cons, List.getLast?_append, List.getLast?_cons, hrec]
          have hL : (r2 :: rs2).getLastD [] ∈ r2 :: rs2 := getLastD_mem _ _ (by simp)
          have hLne : (r2 :: rs2).getLastD [] ≠ [] := h2 _ (List.mem_cons_of_mem r hL)
          obtain ⟨c, t, hct⟩ := List.exists_cons_of_ne_nil hLne
          have hdd : (r :: r2 :: rs2).getLastD [] = (r2 :: rs2).getLastD [] := by
            rw [List.getLastD_cons, List.getLastD_cons, List.getLastD_cons]
          rw [hdd, hct, List.getLast?_cons]
          simp [Option.or]

theorem jsSplitNl_joinLines (rows : List (List Char)) (h1 : rows ≠ [])
    (hnl : ∀ row ∈ rows, '\n' ∉ row) :
    jsSplitNl (joinLines rows) = rows := by
  induction rows with
  | nil => exact absurd rfl h1
  | cons r rs ih =>
      cases rs with
      | nil =>
          have h2 := jsSplitNl_append r [] (hnl r (List.mem_cons_self r []))
          rw [show joinLines [r] = r from rfl]
          simpa [jsSplitNl] using h2
      | cons r2 rs2 =>
          have hrec := ih (by simp) (fun row hrow => hnl row (List.mem_cons_of_mem r hrow))
          rw [joinLines_cons_cons,
            jsSplitNl_append r _ (hnl r (List.mem_cons_self r (r2 :: rs2))),
            jsSplitNl_newline_cons, hrec]
          simp

theorem renderRow_length (row : List Cell) : (renderRow row).length = row.length := by
  simp [renderRow]

theorem renderRow_chars (row : List Cell) (c : Char) (h : c ∈ renderRow row) :
    c = 'O' ∨ c = '.' := by
  simp only [renderRow, List.mem_map] at h
  obtain ⟨b, _, rfl⟩ := h
  cases b <;> simp

theorem renderRow_not_ws (row : List Cell) (c : Char) (h : c ∈ renderRow row) :
    c.isWhitespace = false := by
  rcases renderRow_chars row c h with rfl | rfl <;> decide

theorem renderRow_no_newline (row : List Cell) : '\n' ∉ renderRow row := by
  intro h
  rcases renderRow_chars row '\n' h with h2 | h2 <;> exact absurd h2 (by decide)

/-- C6: for a non-empty rectangular grid, rendering it with `gridToString`
and parsing the result back with `parsePattern` reproduces the grid (and
its dimensions) exactly, so serializing a parsed canonical pattern string
round-trips to the identical text. -/
theorem parse_render_roundTrip (g : Grid) (w : Nat) (hw : 0 < w) (hh : 0 < g.length)
    (hrect : ∀ row ∈ g, row.length = w) :
    parsePattern (gridToString g) = .ok ⟨w, g.length, g⟩ := by
  have hgne : g ≠ [] := by
    intro h
    rw [h] at hh
    simp at hh
  have hrows_ne : g.map renderRow ≠ [] := by
    simpa [List.map_eq_nil_iff] using hgne
  have hrow_ne : ∀ row ∈ g.map renderRow, row ≠ [] := by
    intro row hrow
    obtain ⟨r, hr, rfl⟩ := List.mem_map.mp hrow
    have hlen : (renderRow r).length = w := by rw [renderRow_length, hrect r hr]
    intro hnil
    rw [hnil] at hlen
    simp at hlen
    omega
  have hrow_chars : ∀ row ∈ g.map renderRow, ∀ c ∈ row, c.isWhitespace = false := by
    intro row hrow c hc
    obtain ⟨r, _, rfl⟩ := List.mem_map.mp hrow
    exact renderRow_not_ws r c hc
  have hrow_nl : ∀ row ∈ g.map renderRow, '\n' ∉ row := by
    intro row hrow
    obtain ⟨r, _, rfl⟩ := List.mem_map.mp hrow
    exact renderRow_no_newline r
  have hjoin : gridToString g = joinLines (g.map renderRow) := rfl
  have htrim : jsTrim (gridToString g) = gridToString g := by
    apply jsTrim_eq_self_of_ends
    · rw [hjoin]
      exact joinLines_ne_nil _ hrows_ne hrow_ne
    · obtain ⟨r, t, rfl⟩ := List.exists_cons_of_ne_nil hgne
      have hrne : renderRow r ≠ [] :=
        hrow_ne (renderRow r) (List.mem_map_of_mem renderRow (List.mem_cons_self r t))
      rw [show gridToString (r :: t) = joinLines (renderRow r :: t.map renderRow) from rfl,
        joinLines_headD _ _ hrne]
      have hrne2 : r ≠ [] := by
        intro hre
        have hlw : r.length = w := hrect r (List.mem_cons_self r t)
        rw [hre] at hlw
        simp at hlw
        omega
      obtain ⟨c, r2, rfl⟩ := List.exists_cons_of_ne_nil hrne2
      cases c <;> rfl
    · have hlq : (joinLines (g.map renderRow)).getLast? =
          ((g.map renderRow).getLastD []).getLast? :=
        joinLines_getLast? _ hrow_ne hrows_ne
      have hlmem : (gridToString g).getLastD ' ' ∈ (g.map renderRow).getLastD [] := by
        rw [hjoin, List.getLastD_eq_getLast? ' ' (joinLines (g.map renderRow)), hlq,
          ← List.getLastD_eq_getLast? ' ' ((g.map renderRow).getLastD [])]
        exact getLastD_mem _ _ (hrow_ne _ (getLastD_mem _ _ hrows_ne))
      exact hrow_chars _ (getLastD_mem _ _ hrows_ne) _ hlmem
  have hlines : (jsSplitNl (jsTrim (gridToString g))).map jsTrim = g.map renderRow := by
    rw [htrim, hjoin, jsSplitNl_joinLines _ hrows_ne hrow_nl]
    exact map_eq_self_of _ _ fun row hrow => jsTrim_eq_self_of_no_ws row (hrow_chars row hrow)
  have hlen0 : ¬ ((jsSplitNl (jsTrim (gridToString g))).map jsTrim).length = 0 := by
    rw [hlines]
    simpa [List.length_eq_zero] using hrows_ne
  simp only [parsePattern]
  rw [if_neg hlen0, hlines]
  have e1 : maxLength ((g.map renderRow).map List.length) = w := by
    have hall : ∀ a ∈ (g.map renderRow).map List.length, a = w := by
      intro a ha
      obtain ⟨row, hrow, rfl⟩ := List.mem_map.mp ha
      obtain ⟨r, hr, rfl⟩ := List.mem_map.mp hrow
      rw [renderRow_length]
      exact hrect r hr
    have hnel : (g.map renderRow).map List.length ≠ [] := by
      simpa [List.map_eq_nil_iff] using hgne
    unfold maxLength
    rw [foldl_max_const w _ hall 0, if_neg hnel]
    exact Nat.max_eq_right (Nat.zero_le w)
  rw [e1]
  have e3 : (g.map renderRow).map
      (fun line => (List.range w).map fun i => line.getD i '.' == 'O') = g := by
    rw [List.map_map]
    apply map_eq_self_of
    intro r hr
    show (List.range w).map (fun i => (renderRow r).getD i '.' == 'O') = r
    apply List.ext_getElem
    · simp [hrect r hr]
    · intro i h1 h2
      simp only [List.getElem_map, List.getElem_range]
      have hi : i < (renderRow r).length := by
        rw [renderRow_length]
        exact h2
      rw [List.getD_eq_getElem?_getD]
      unfold renderRow
      rw [List.getElem?_map, List.getElem?_eq_getElem h2]
      simp only [Option.map_some', Option.getD_some]
      cases hb : r[i] <;> simp [hb]
  rw [e3]
  simp

/-- C6 witness: the round trip applied to the glider pattern of the spec;
its rendering is the exact 3-line text `".O.\n..O\nOOO"` and parsing that
text returns exactly the same cells, so re-serializing returns the
identical text. -/
theorem parse_render_roundTrip_witness :
    parsePattern (gridToString [[false, true, false], [false, false, true], [true, true, true]]) =
      .ok ⟨3, 3, [[false, true, false], [false, false, true], [true, true, true]]⟩ ∧
    gridToString [[false, true, false], [false, false, true], [true, true, true]] =
      ".O.\n..O\nOOO".data :=
  ⟨parse_render_roundTrip [[false, true, false], [false, false, true], [true, true, true]] 3
    (by decide) (by decide) (by decide), rfl⟩

end GameOfLife
